import Mathlib

/-!
Verification development for the two-pass MIPS assembler in
src/core/assembler.py of the scratch-gcc repository.

The assembler state and the per-line processing pipeline are embedded as
executable Lean functions, translated from the Python source.  Python
exceptions that the source does not catch (AttributeError, IndexError,
ValueError, struct.error, the assertion in getRegisterNumber, the
explicit Exception raises) are modelled with the Except monad; a
recoverable diagnostic is an AssemblyMessage collected in the state.

The one place where the source is not directly translatable is
InstructionArgument.evaluate, which pre-processes the operand text with
regular expressions and then calls the host-language eval.  Its
behaviour is embedded here on the constrained operand grammar that the
assembler actually feeds it (decimal numerals, register references
matching a dollar sign followed by word characters, and label
identifiers); any other operand text is mapped to the SyntaxError
diagnostic branch of the source.  Composite arithmetic operand
expressions do not occur at any call site relevant to the claims.
-/

/-- A source line (and every other piece of raw text) is a list of
characters, mirroring Python string indexing. -/
abbrev Line := List Char

def chars (s : String) : Line := s.data

/-- AssemblyMessage from the source: a message plus an optional
1-based source line number (None until tracked). -/
structure AssemblyMessage where
  message : String
  line : Option Nat
deriving DecidableEq

deriving instance DecidableEq for Except

/-- Python str.strip character class (whitespace). -/
def isPySpace (c : Char) : Bool :=
  c == ' ' || c == '\t' || c == '\n' || c == '\r' || c == '\x0b' || c == '\x0c'

/-- Python str.strip: drop whitespace from both ends. -/
def pyStrip (l : Line) : Line :=
  ((l.dropWhile isPySpace).reverse.dropWhile isPySpace).reverse

/-- Number of double-quote characters in a suffix of the line; the
source decides enclosure of the character at index i by the parity of
the quote count from i to the end (Assembly._isCharEnclosed). -/
def countQuotes (l : Line) : Nat := l.count '"'

/-- Assembly._removeComments: cut the line at the first hash character
that is not enclosed in double quotes.  If the line contains a hash but
every hash is enclosed, the Python function falls through and returns
None (modelled as none); the caller then crashes on None.replace. -/
def removeCommentsAux : Line → Option Line
  | [] => none
  | c :: rest =>
    if c == '#' && !(countQuotes (c :: rest) % 2 == 1) then some []
    else (removeCommentsAux rest).map (fun l => c :: l)

def removeComments (line : Line) : Option Line :=
  if line.contains '#' then removeCommentsAux line else some line

/-- Assembly._split: split on a delimiter, except where the delimiter
is enclosed in double quotes.  A segment is appended at every
delimiter, even when empty; the trailing segment only when non-empty. -/
def pySplit (delim : Char) (seg : Line) : Line → List Line
  | [] => if seg.isEmpty then [] else [seg]
  | c :: rest =>
    if c == delim && !(countQuotes (c :: rest) % 2 == 1) then
      seg :: pySplit delim [] rest
    else
      pySplit delim (seg ++ [c]) rest

/-- Value of a non-empty string of decimal digits. -/
def digitsVal (ds : Line) : Int :=
  ds.foldl (fun a c => a * 10 + ((c.toNat : Int) - 48)) 0

def isDigits (l : Line) : Bool := !l.isEmpty && l.all Char.isDigit

/-- Python int(string): optional surrounding whitespace, optional sign,
then decimal digits; anything else raises ValueError (none here). -/
def pyInt (l : Line) : Option Int :=
  match pyStrip l with
  | '-' :: ds => if isDigits ds then some (-(digitsVal ds)) else none
  | '+' :: ds => if isDigits ds then some (digitsVal ds) else none
  | ds => if isDigits ds then some (digitsVal ds) else none

/-- A decimal integer literal as the host-language eval accepts it: an
optional sign and digits without a leading zero (except a lone 0). -/
def noLeadZero : Line → Bool
  | '0' :: _ :: _ => false
  | _ => true

def numeralCore (l : Line) : Option Int :=
  match l with
  | '-' :: ds => if isDigits ds && noLeadZero ds then some (-(digitsVal ds)) else none
  | '+' :: ds => if isDigits ds && noLeadZero ds then some (digitsVal ds) else none
  | ds => if isDigits ds && noLeadZero ds then some (digitsVal ds) else none

def isWordChar (c : Char) : Bool := c.isAlphanum || c == '_'

/-- A whole-expression register reference, matching the regular
expression of a dollar sign followed by word characters. -/
def isRegisterExpr (l : Line) : Bool :=
  l.head? == some '$' && !l.tail.isEmpty && l.tail.all isWordChar

/-- A label identifier: a letter or underscore followed by word
characters (the placeholder-collection regex of evaluate). -/
def isIdentifier (l : Line) : Bool :=
  match l with
  | c :: rest => (c.isAlpha || c == '_') && rest.all isWordChar
  | [] => false

/-- The fixed register alias table of
InstructionArgument.getRegisterNumber. -/
def registerAliases : List (Line × Int) :=
  [(chars "zero", 0), (chars "gp", 28), (chars "sp", 29), (chars "fp", 30), (chars "ra", 31)]

/-- InstructionArgument.getRegisterNumber: assert the leading dollar
sign, look the name up in the alias table, otherwise fall back to
int(name).  Note that there is no 0-31 range check, and that a failing
int() raises a ValueError that no caller catches. -/
def getRegisterNumber (registerName : Line) : Except String Int :=
  if registerName.head? == some '$' then
    let rest := registerName.tail
    match registerAliases.lookup rest with
    | some n => .ok n
    | none =>
      match pyInt rest with
      | some n => .ok n
      | none => .error "ValueError"
  else .error "AssertionError"

def labelNotDefinedMsg (name : Line) : String :=
  "Label \"" ++ String.mk name ++ "\" is not defined"

/-- Substring test used for the forbidden-name check of evaluate. -/
def leadsWith : Line → Line → Bool
  | [], _ => true
  | _ :: _, [] => false
  | a :: as, b :: bs => a == b && leadsWith as bs

def containsSeq (pat : Line) : Line → Bool
  | [] => pat.isEmpty
  | c :: rest => leadsWith pat (c :: rest) || containsSeq pat rest

/-- InstructionArgument.evaluate on the constrained operand grammar.
The labels argument is None during the first pass; crucially the source
tests it with a truthiness check, so an EMPTY label table is also
treated like the first pass and every identifier then resolves to the
placeholder 0 without a diagnostic.  An expression containing
the name __class__ raises before anything else.  A register reference
goes through getRegisterNumber, whose ValueError is not caught (only
NameError and SyntaxError are). -/
def evaluate (expr : Line) (labels : Option (List (Line × Nat))) :
    Except String (Int × Option AssemblyMessage) :=
  if containsSeq (chars "__class__") expr then .error "Exception"
  else
    match numeralCore expr with
    | some n => .ok (n, none)
    | none =>
      if isRegisterExpr expr then
        match getRegisterNumber expr with
        | .ok n => .ok (n, none)
        | .error e => .error e
      else if isIdentifier expr then
        match labels with
        | none => .ok (0, none)
        | some ls =>
          if ls.isEmpty then .ok (0, none)
          else
            match ls.lookup expr with
            | some v => .ok ((v : Int), none)
            | none => .ok (0, some ⟨labelNotDefinedMsg expr, none⟩)
      else .ok (0, some ⟨"Syntax Error", none⟩)

/-! ## The instruction encoder (MIPSInstructionFormat) -/

/-- MIPSInstructionFormat._toBits: the bit array of the low numBits
bits of n, most significant first.  Python floor division and modulo by
a positive divisor coincide with Int.ediv and Int.emod. -/
def toBits (n : Int) : Nat → List Int
  | 0 => []
  | w + 1 => (n / 2 ^ w % 2) :: toBits n w

/-- MIPSInstructionFormat._bitsToInt: value of a most-significant-first
bit array. -/
def bitsToInt : List Int → Int
  | [] => 0
  | b :: bs => b * 2 ^ bs.length + bitsToInt bs

/-- struct.pack with the big-endian unsigned 32-bit format: four bytes,
most significant first; out-of-range values raise struct.error. -/
def packBE32 (n : Int) : Except String (List Nat) :=
  if 0 ≤ n ∧ n < 2 ^ 32 then
    .ok [(n / 2 ^ 24 % 256).toNat, (n / 2 ^ 16 % 256).toNat,
         (n / 2 ^ 8 % 256).toNat, (n % 256).toNat]
  else .error "struct.error"

/-- Assembly.toWord: struct.pack with the native (little-endian)
unsigned 32-bit format. -/
def toWord (n : Int) : Except String (List Nat) :=
  if 0 ≤ n ∧ n < 2 ^ 32 then
    .ok [(n % 256).toNat, (n / 2 ^ 8 % 256).toNat,
         (n / 2 ^ 16 % 256).toNat, (n / 2 ^ 24 % 256).toNat]
  else .error "struct.error"

/-- The I-type format of InstructionFormats.IType: named fields with
bit widths, in declaration order. -/
def ITypeArgs : List (String × Nat) :=
  [("op", 6), ("rs", 5), ("rt", 5), ("imm", 16)]

/-- MIPSInstructionFormat.byteCodeFromArgs, first half: concatenate the
bit arrays of each declared field, reading values from the argument
dictionary (a missing key raises KeyError). -/
def fieldBitsM (fmtArgs : List (String × Nat)) (argValues : List (String × Int)) :
    Except String (List Int) :=
  match fmtArgs with
  | [] => .ok []
  | (an, sz) :: rest =>
    match argValues.lookup an with
    | none => .error "KeyError"
    | some v => (fieldBitsM rest argValues).map (fun bs => toBits v sz ++ bs)

/-- MIPSInstructionFormat.byteCodeFromArgs: pack the concatenated field
bits into a big-endian 32-bit word. -/
def byteCodeFromArgs (fmtArgs : List (String × Nat)) (argValues : List (String × Int)) :
    Except String (List Nat) :=
  match fieldBitsM fmtArgs argValues with
  | .error e => .error e
  | .ok bits => packBE32 (bitsToInt bits)

/-- The argument-format names of the single call site
IType.buildInstructionCode with format string rt,rs,imm (no offset
entries, so the offset branch of the source is never taken). -/
def addiuArgFormat : List String := ["rt", "rs", "imm"]

/-- The evaluation loop of buildInstructionCode: evaluate each operand
expression against its format name, collecting values and diagnostics
in order.  An uncaught exception from evaluate aborts. -/
def evalArgsLoop (pairs : List (String × Line)) (labels : Option (List (Line × Nat))) :
    Except String (List (String × Int) × List AssemblyMessage) :=
  match pairs with
  | [] => .ok ([], [])
  | (argName, argExpr) :: rest =>
    match evaluate argExpr labels with
    | .error e => .error e
    | .ok (v, err) =>
      match evalArgsLoop rest labels with
      | .error e => .error e
      | .ok (vals, errs) => .ok ((argName, v) :: vals, err.toList ++ errs)

def expectedArgsMsg (found : Nat) : String :=
  "Expected 4 arguments, but found " ++ toString found

/-- MIPSInstructionFormat.buildInstructionCode as invoked for addiu:
zip the format names with the textual arguments (extra arguments are
silently dropped by zip), evaluate them, start the argument dictionary
from the preset op field, and if the dictionary does not have exactly
as many entries as the format declares, record a diagnostic and encode
all-zero fields instead. -/
def buildInstructionCode (argStrings : List Line) (labels : Option (List (Line × Nat))) :
    Except String (List Nat × List AssemblyMessage) :=
  match evalArgsLoop (addiuArgFormat.zip argStrings) labels with
  | .error e => .error e
  | .ok (parsed, errs) =>
    let argValues : List (String × Int) := parsed ++ [("op", 9)]
    if argValues.length ≠ ITypeArgs.length then
      let zeroed : List (String × Int) := ITypeArgs.map (fun a => (a.1, 0))
      match byteCodeFromArgs ITypeArgs zeroed with
      | .error e => .error e
      | .ok code => .ok (code, errs ++ [⟨expectedArgsMsg argValues.length, none⟩])
    else
      match byteCodeFromArgs ITypeArgs argValues with
      | .error e => .error e
      | .ok code => .ok (code, errs)

/-! ## The Assembly driver -/

/-- The mutable state of an Assembly instance (Assembly.__init__).
The debug-only fields machCodeLines and positionAtLastLine feed nothing
back into assembly and are omitted; the configuration fields keep their
default values (WARN_UNKNOWN_DIRECTIVE is True). -/
structure AsmState where
  labels : List (Line × Nat)
  machCode : List Nat
  currentPos : Nat
  currentLine : Nat
  errors : List AssemblyMessage
  warnings : List AssemblyMessage
  sourceLines : List Line
  polluted : Bool
deriving DecidableEq

/-- The size of the reserved memory-mapped region written before any
program bytes (Assembly._IO_SPACE_SIZE). -/
def IO_SPACE_SIZE : Nat := 256

/-- A fresh Assembly instance whose source lines have been loaded (for
an instance with no source loaded, pass the empty list, which is the
value left by Assembly.__init__). -/
def initState (sourceLines : List Line) : AsmState :=
  { labels := [], machCode := [], currentPos := 0, currentLine := 1,
    errors := [], warnings := [], sourceLines := sourceLines, polluted := false }

/-- Assembly.addBytesToCode: append the bytes one at a time, advancing
the position cursor with each byte. -/
def addBytesToCode (s : AsmState) (bs : List Nat) : AsmState :=
  { s with machCode := s.machCode ++ bs, currentPos := s.currentPos + bs.length }

/-- Assembly.createWarning. -/
def createWarning (s : AsmState) (message : String) : AsmState :=
  { s with warnings := s.warnings ++ [⟨message, some s.currentLine⟩] }

/-- Assembly.createError. -/
def createError (s : AsmState) (message : String) : AsmState :=
  { s with errors := s.errors ++ [⟨message, some s.currentLine⟩] }

/-- Assembly.trackErrorsToCurrentLine: stamp each collected message
with the current line number and append it to the error list. -/
def trackErrorsToCurrentLine (s : AsmState) (errs : List AssemblyMessage) : AsmState :=
  { s with errors := s.errors ++ errs.map (fun m => { m with line := some s.currentLine }) }

/-- Assembly.onLabel: bind the label to the current byte position.  A
Python dictionary assignment overwrites; prepending to the association
list gives the same lookup behaviour (the newest binding wins). -/
def onLabel (s : AsmState) (labelName : Line) : AsmState :=
  { s with labels := (labelName, s.currentPos) :: s.labels }

def unknownDirectiveMsg (directive : Line) : String :=
  "Unknown assembler directive \"" ++ String.mk directive ++ "\""

/-- Assembly.onDirective: the word directive emits the little-endian
word of int(args[0]) (args[0] raises IndexError when absent, int
raises ValueError on garbage, struct.pack raises on out-of-range);
every other directive is ignored, with a warning in the first pass
only. -/
def onDirective (s : AsmState) (directive : Line) (args : List Line) (isFirstPass : Bool) :
    Except String AsmState :=
  if directive == chars "word" then
    match args.head? with
    | none => .error "IndexError"
    | some a0 =>
      match pyInt a0 with
      | none => .error "ValueError"
      | some n =>
        match toWord n with
        | .error e => .error e
        | .ok bs => .ok (addBytesToCode s bs)
  else
    .ok (if isFirstPass then createWarning s (unknownDirectiveMsg directive) else s)

def unknownInstructionMsg (instruction : Line) : String :=
  "Unknown instruction \"" ++ String.mk instruction ++ "\""

/-- The non-pseudo-instruction part of Assembly.onInstruction: addiu is
the only implemented mnemonic; everything else records an error and
emits nothing. -/
def onInstructionCore (s : AsmState) (instruction : Line) (args : List Line)
    (isFirstPass : Bool) : Except String AsmState :=
  let labels := if isFirstPass then none else some s.labels
  if instruction == chars "addiu" then
    match buildInstructionCode args labels with
    | .error e => .error e
    | .ok (code, errors) => .ok (addBytesToCode (trackErrorsToCurrentLine s errors) code)
  else .ok (createError s (unknownInstructionMsg instruction))

/-- Assembly.onInstruction: the nop pseudo-instruction re-enters with
sll and fixed arguments (the source recursion has depth one, since sll
is not itself nop). -/
def onInstruction (s : AsmState) (instruction : Line) (args : List Line)
    (isFirstPass : Bool) : Except String AsmState :=
  if instruction == chars "nop" then
    onInstructionCore s (chars "sll") [chars "$zero", chars "$zero", chars "0"] isFirstPass
  else onInstructionCore s instruction args isFirstPass

/-- Strip all trailing colons (Python str.rstrip with one colon). -/
def rstripColons (l : Line) : Line := (l.reverse.dropWhile (fun c => c == ':')).reverse

/-- Advance the diagnostic line counter (the statement at the very end
of Assembly.processLine, skipped by its early returns). -/
def advanceLine (s : AsmState) : AsmState := { s with currentLine := s.currentLine + 1 }

/-- Assembly.processLine.  Strips the line, removes comments (crashing
on the None fall-through of _removeComments), converts tabs to spaces,
and classifies: an empty line returns without advancing the line
counter; a line ending in a colon defines a label in the first pass
(and returns without advancing in the second); a line starting with a
dot is a directive; everything else is an instruction.  Only parts[1]
of the space-split line is used as the argument text, so any text after
the second space-separated chunk is dropped. -/
def classifyLine (s : AsmState) (line : Line) (isFirstPass : Bool) :
    Except String AsmState :=
  if line.isEmpty then .ok s
    else if line.getLast? == some ':' then
      if isFirstPass then .ok (advanceLine (onLabel s (rstripColons line)))
      else .ok s
    else if line.head? == some '.' then
      match pySplit ' ' [] (line.dropWhile (fun c => c == '.')) with
      | [] => .error "IndexError"
      | directive :: restParts =>
        let args := (pySplit ',' [] ((restParts.head?).getD [])).map pyStrip
        match onDirective s directive args isFirstPass with
        | .error e => .error e
        | .ok s' => .ok (advanceLine s')
    else
      match pySplit ' ' [] line with
      | [] => .error "IndexError"
      | instruction :: restParts =>
        let args := (pySplit ',' [] ((restParts.head?).getD [])).map pyStrip
        match onInstruction s instruction args isFirstPass with
        | .error e => .error e
        | .ok s' => .ok (advanceLine s')

def processLine (s : AsmState) (rawLine : Line) (isFirstPass : Bool) :
    Except String AsmState :=
  match removeComments (pyStrip rawLine) with
  | none => .error "AttributeError"
  | some decommented =>
    classifyLine s (decommented.map (fun c => if c == '\t' then ' ' else c)) isFirstPass

/-- The line loop of Assembly.runPass. -/
def runLines (lines : List Line) (isFirstPass : Bool) (s : AsmState) :
    Except String AsmState :=
  match lines with
  | [] => .ok s
  | l :: rest =>
    match processLine s l isFirstPass with
    | .error e => .error e
    | .ok s' => runLines rest isFirstPass s'

/-- Assembly.runPass: write the zero-filled reserved window, then
process every source line in order. -/
def runPass (s : AsmState) (isFirstPass : Bool) : Except String AsmState :=
  runLines s.sourceLines isFirstPass (addBytesToCode s (List.replicate IO_SPACE_SIZE 0))

/-- Assembly.assemble: refuse a second run on the same instance, run
the first pass, reset the cursor, line counter and image (labels and
diagnostics persist), run the second pass, and mark the instance
polluted. -/
def assemble (s : AsmState) : Except String AsmState :=
  if s.polluted then
    .error "Exception: Assembly source can only be processed once per Assembly instance"
  else
    match runPass s true with
    | .error e => .error e
    | .ok s1 =>
      match runPass { s1 with currentPos := 0, currentLine := 1, machCode := [] } false with
      | .error e => .error e
      | .ok s2 => .ok { s2 with polluted := true }

/-- Assembly.findEntryPoint: dictionary access raising KeyError when no
main label exists. -/
def findEntryPoint (s : AsmState) : Except String Nat :=
  match s.labels.lookup (chars "main") with
  | some a => .ok a
  | none => .error "KeyError"

/-- The packed 32-bit word of an I-type instruction, as assembled by
byteCodeFromArgs before serialization. -/
def iTypeWord (op rs rt imm : Int) : Int :=
  bitsToInt (toBits op 6 ++ toBits rs 5 ++ toBits rt 5 ++ toBits imm 16)

/-- Reading a field of the given width back out of a packed word,
starting at the given low bit position. -/
def readField (word : Int) (loBit width : Nat) : Int := word / 2 ^ loBit % 2 ^ width

/-- The state change a successfully processed line is allowed to make:
the cursor and the image grow in lockstep by k bytes, the source is
untouched, diagnostics are only appended, and the second pass never
appends a warning. -/
def StepOk (s s' : AsmState) (k : Nat) (fp : Bool) : Prop :=
  s'.currentPos = s.currentPos + k ∧
  s'.machCode.length = s.machCode.length + k ∧
  s'.sourceLines = s.sourceLines ∧
  (∃ er, s'.errors = s.errors ++ er) ∧
  (∃ wr, s'.warnings = s.warnings ++ wr ∧ (fp = false → wr = []))

/-- The two-line scenario program of the spec, with the operand
spacing exactly as the spec writes it. -/
def scenarioSpaced : List Line := [chars "main:", chars "addiu $2, $0, 5"]

/-- The same scenario program written the way the assembler's argument
splitter actually requires (no spaces after the commas, which is also
how gcc emits MIPS assembly). -/
def scenarioNoSpace : List Line := [chars "main:", chars "addiu $2,$0,5"]

/-- One-line program referencing an undefined label, spelled exactly as
in the spec scenario. -/
def undefLabelSpaced : List Line := [chars "addiu $2, $0, undefined_label"]

/-- The same undefined-label reference with the operand list in the
splitter-compatible form, isolating label resolution itself. -/
def undefLabelNoSpace : List Line := [chars "addiu $2,$0,undefined_label"]

/-- A program defining the same label on two different lines, with a
word directive between them so the two definitions bind different byte
positions, and an instruction referencing the label. -/
def dupLabelProgram : List Line :=
  [chars "dup:", chars ".word 1", chars "dup:", chars "addiu $2,$0,dup"]

/-- A label line followed by an unrecognized mnemonic. -/
def unknownAfterLabel : List Line := [chars "main:", chars "foo"]

/-- A single unrecognized mnemonic line. -/
def unknownAlone : List Line := [chars "foo"]

/-- The state left by pass 1 on the one-line unknown-mnemonic program
(window written, one diagnostic, line counter advanced once). -/
def c9Pass1State : AsmState where
  labels := []
  machCode := List.replicate 256 0
  currentPos := 256
  currentLine := 2
  errors := [⟨unknownInstructionMsg (chars "foo"), some 1⟩]
  warnings := []
  sourceLines := [chars "foo"]
  polluted := false

/-- The state left by the full assemble run on the same program (the
pass-1 diagnostic kept, a second identical one appended). -/
def c9FinalState : AsmState where
  labels := []
  machCode := List.replicate 256 0
  currentPos := 256
  currentLine := 2
  errors := [⟨unknownInstructionMsg (chars "foo"), some 1⟩,
             ⟨unknownInstructionMsg (chars "foo"), some 1⟩]
  warnings := []
  sourceLines := [chars "foo"]
  polluted := true

/-! ## Arithmetic facts about the encoder -/

theorem toBits_length (n : Int) : ∀ w, (toBits n w).length = w
  | 0 => rfl
  | w + 1 => by simp [toBits, toBits_length n w]

theorem toBits_bounds (n : Int) : ∀ w, ∀ b ∈ toBits n w, 0 ≤ b ∧ b < 2
  | 0 => by simp [toBits]
  | w + 1 => by
    intro b hb
    simp only [toBits, List.mem_cons] at hb
    rcases hb with rfl | hb
    · exact ⟨Int.emod_nonneg _ (by decide), Int.emod_lt_of_pos _ (by decide)⟩
    · exact toBits_bounds n w b hb

theorem bitsToInt_range : ∀ bits : List Int, (∀ b ∈ bits, 0 ≤ b ∧ b < 2) →
    0 ≤ bitsToInt bits ∧ bitsToInt bits < 2 ^ bits.length := by
  intro bits
  induction bits with
  | nil => intro _; simp [bitsToInt]
  | cons b bs ih =>
    intro h
    have hb := h b (List.mem_cons_self b bs)
    have hbs := ih (fun x hx => h x (List.mem_cons_of_mem b hx))
    have hA : (0 : Int) < 2 ^ bs.length := by positivity
    have h1 : b * 2 ^ bs.length ≤ 1 * 2 ^ bs.length :=
      mul_le_mul_of_nonneg_right (by omega) (le_of_lt hA)
    have h0 : 0 ≤ b * 2 ^ bs.length := mul_nonneg hb.1 (le_of_lt hA)
    have hpow : (2 : Int) ^ (bs.length + 1) = 2 ^ bs.length + 2 ^ bs.length := by ring
    constructor
    · simp only [bitsToInt]
      linarith [hbs.1]
    · simp only [bitsToInt, List.length_cons, hpow]
      linarith [hbs.2]

/-- C3 core: encoding a field value and reading the bit array back
gives the value modulo 2 to the width. -/
theorem bitsToInt_toBits (v : Int) : ∀ w, bitsToInt (toBits v w) = v % 2 ^ w
  | 0 => by simp [toBits, bitsToInt]
  | w + 1 => by
    have ih := bitsToInt_toBits v w
    have hA : (0 : Int) < 2 ^ w := by positivity
    have hdm := Int.ediv_add_emod v (2 ^ w)
    have hq := Int.ediv_add_emod (v / 2 ^ w) 2
    have hr1 : 0 ≤ v % 2 ^ w := Int.emod_nonneg _ (ne_of_gt hA)
    have hr2 : v % 2 ^ w < 2 ^ w := Int.emod_lt_of_pos _ hA
    have hb1 : 0 ≤ v / 2 ^ w % 2 := Int.emod_nonneg _ (by decide)
    have hb2 : v / 2 ^ w % 2 < 2 := Int.emod_lt_of_pos _ (by decide)
    have hv : v = v / 2 ^ w % 2 * 2 ^ w + v % 2 ^ w + 2 * 2 ^ w * (v / 2 ^ w / 2) := by
      linear_combination hdm.symm + (2 : Int) ^ w * hq.symm
    have key : v % (2 * 2 ^ w) = v / 2 ^ w % 2 * 2 ^ w + v % 2 ^ w := by
      conv_lhs => rw [hv]
      rw [Int.add_mul_emod_self_left]
      refine Int.emod_eq_of_lt (by nlinarith) (by nlinarith)
    simp only [toBits, bitsToInt, toBits_length, ih]
    rw [show (2 : Int) ^ (w + 1) = 2 * 2 ^ w by ring, key]

theorem bitsToInt_append (a b : List Int) :
    bitsToInt (a ++ b) = bitsToInt a * 2 ^ b.length + bitsToInt b := by
  induction a with
  | nil => simp [bitsToInt]
  | cons x xs ih =>
    simp only [List.cons_append, bitsToInt, ih, List.append_eq, List.length_append]
    ring

theorem iTypeWord_eq (op rs rt imm : Int) :
    iTypeWord op rs rt imm =
      op % 64 * 67108864 + rs % 32 * 2097152 + rt % 32 * 65536 + imm % 65536 := by
  unfold iTypeWord
  rw [List.append_assoc, List.append_assoc, bitsToInt_append, bitsToInt_append,
    bitsToInt_append]
  simp only [toBits_length, bitsToInt_toBits, List.length_append]
  norm_num
  ring

theorem iTypeWord_fields (op rs rt imm : Int) :
    readField (iTypeWord op rs rt imm) 26 6 = op % 2 ^ 6 ∧
    readField (iTypeWord op rs rt imm) 21 5 = rs % 2 ^ 5 ∧
    readField (iTypeWord op rs rt imm) 16 5 = rt % 2 ^ 5 ∧
    readField (iTypeWord op rs rt imm) 0 16 = imm % 2 ^ 16 := by
  have h := iTypeWord_eq op rs rt imm
  unfold readField
  rw [h]
  norm_num
  refine ⟨by omega, by omega, by omega, by omega⟩

theorem byteCode_iType (op rs rt imm : Int) :
    byteCodeFromArgs ITypeArgs [("op", op), ("rs", rs), ("rt", rt), ("imm", imm)]
      = packBE32 (iTypeWord op rs rt imm) := by
  show packBE32 (bitsToInt (toBits op 6 ++ (toBits rs 5 ++ (toBits rt 5 ++ (toBits imm 16 ++ []))))) = _
  rw [iTypeWord]
  simp [List.append_assoc]

/-! ## Pass-independence of the per-line byte growth

The only difference between the two passes visible to a single line is
the labels argument handed to evaluate (and the first-pass flag of the
directive warning).  The lemmas below show that whether a line aborts
with an uncaught exception, and how many bytes it emits, never depend
on either. -/

theorem evaluate_ident_ok (e : Line) (L : Option (List (Line × Nat)))
    (h1 : containsSeq (chars "__class__") e = false)
    (h2 : numeralCore e = none) (h3 : isRegisterExpr e = false) :
    ∃ a, evaluate e L = .ok a := by
  unfold evaluate
  simp only [h1, h2, h3, Bool.false_eq_true, if_false]
  by_cases h5 : isIdentifier e = true
  · simp only [h5, if_true]
    rcases L with _ | ls
    · exact ⟨_, rfl⟩
    · by_cases h6 : ls.isEmpty = true
      · simp only [h6, if_true]; exact ⟨_, rfl⟩
      · simp only [h6, Bool.false_eq_true, if_false]
        cases ls.lookup e
        · exact ⟨_, rfl⟩
        · exact ⟨_, rfl⟩
  · simp only [h5, Bool.false_eq_true, if_false]
    exact ⟨_, rfl⟩

theorem evaluate_parity (e : Line) (L L' : Option (List (Line × Nat))) :
    (∃ m, evaluate e L = .error m ∧ evaluate e L' = .error m) ∨
    (∃ a a', evaluate e L = .ok a ∧ evaluate e L' = .ok a') := by
  by_cases h1 : containsSeq (chars "__class__") e = true
  · left; exact ⟨"Exception", by simp [evaluate, h1], by simp [evaluate, h1]⟩
  · rw [Bool.not_eq_true] at h1
    cases h2 : numeralCore e with
    | some n =>
      right; exact ⟨(n, none), (n, none), by simp [evaluate, h1, h2], by simp [evaluate, h1, h2]⟩
    | none =>
      by_cases h3 : isRegisterExpr e = true
      · cases h4 : getRegisterNumber e with
        | ok n =>
          right
          exact ⟨(n, none), (n, none), by simp [evaluate, h1, h2, h3, h4],
            by simp [evaluate, h1, h2, h3, h4]⟩
        | error m =>
          left
          exact ⟨m, by simp [evaluate, h1, h2, h3, h4], by simp [evaluate, h1, h2, h3, h4]⟩
      · rw [Bool.not_eq_true] at h3
        right
        obtain ⟨a, ha⟩ := evaluate_ident_ok e L h1 h2 h3
        obtain ⟨a', ha'⟩ := evaluate_ident_ok e L' h1 h2 h3
        exact ⟨a, a', ha, ha'⟩

theorem evalArgsLoop_parity (pairs : List (String × Line)) (L L' : Option (List (Line × Nat))) :
    (∃ m, evalArgsLoop pairs L = .error m ∧ evalArgsLoop pairs L' = .error m) ∨
    (∃ p e p' e', evalArgsLoop pairs L = .ok (p, e) ∧ evalArgsLoop pairs L' = .ok (p', e') ∧
      p.map Prod.fst = pairs.map Prod.fst ∧ p'.map Prod.fst = pairs.map Prod.fst) := by
  induction pairs with
  | nil => right; exact ⟨[], [], [], [], rfl, rfl, rfl, rfl⟩
  | cons hd tl ih =>
    obtain ⟨an, ae⟩ := hd
    rcases evaluate_parity ae L L' with ⟨m, h1, h2⟩ | ⟨⟨v1, e1⟩, ⟨v2, e2⟩, h1, h2⟩
    · left; exact ⟨m, by simp [evalArgsLoop, h1], by simp [evalArgsLoop, h2]⟩
    · rcases ih with ⟨m, g1, g2⟩ | ⟨p, e, p', e', g1, g2, hk, hk'⟩
      · left; exact ⟨m, by simp [evalArgsLoop, h1, g1], by simp [evalArgsLoop, h2, g2]⟩
      · right
        refine ⟨(an, v1) :: p, e1.toList ++ e, (an, v2) :: p', e2.toList ++ e', ?_, ?_, ?_, ?_⟩
        · simp [evalArgsLoop, h1, g1]
        · simp [evalArgsLoop, h2, g2]
        · simpa using hk
        · simpa using hk'

theorem byteCode_addiu_ok (a b c : Int) :
    ∃ code, byteCodeFromArgs ITypeArgs [("rt", a), ("rs", b), ("imm", c), ("op", 9)] = .ok code ∧
      code.length = 4 := by
  have hfb : fieldBitsM ITypeArgs [("rt", a), ("rs", b), ("imm", c), ("op", 9)]
      = .ok (toBits 9 6 ++ (toBits b 5 ++ (toBits a 5 ++ (toBits c 16 ++ [])))) := rfl
  have hb : ∀ x ∈ toBits 9 6 ++ (toBits b 5 ++ (toBits a 5 ++ (toBits c 16 ++ []))),
      0 ≤ x ∧ x < 2 := by
    intro x hx
    simp only [List.append_nil, List.mem_append] at hx
    rcases hx with hx | hx | hx | hx
    · exact toBits_bounds 9 6 x hx
    · exact toBits_bounds b 5 x hx
    · exact toBits_bounds a 5 x hx
    · exact toBits_bounds c 16 x hx
  have hlen : (toBits 9 6 ++ (toBits b 5 ++ (toBits a 5 ++ (toBits c 16 ++ [])))).length = 32 := by
    simp [toBits_length]
  have hrange := bitsToInt_range _ hb
  rw [hlen] at hrange
  unfold byteCodeFromArgs
  rw [hfb]
  have hcond : 0 ≤ bitsToInt (toBits 9 6 ++ (toBits b 5 ++ (toBits a 5 ++ (toBits c 16 ++ [])))) ∧
      bitsToInt (toBits 9 6 ++ (toBits b 5 ++ (toBits a 5 ++ (toBits c 16 ++ [])))) < 2 ^ 32 :=
    hrange
  simp only [packBE32, hcond, if_true, and_true]
  exact ⟨_, rfl, rfl⟩

theorem byteCode_zeroed_ok :
    byteCodeFromArgs ITypeArgs (ITypeArgs.map (fun a => (a.1, 0))) = .ok [0, 0, 0, 0] := rfl

theorem buildInstructionCode_parity (args : List Line) (L L' : Option (List (Line × Nat))) :
    (∃ m, buildInstructionCode args L = .error m ∧ buildInstructionCode args L' = .error m) ∨
    (∃ c e c' e', buildInstructionCode args L = .ok (c, e) ∧
      buildInstructionCode args L' = .ok (c', e') ∧ c.length = 4 ∧ c'.length = 4) := by
  rcases evalArgsLoop_parity (addiuArgFormat.zip args) L L' with
    ⟨m, h1, h2⟩ | ⟨p, e, p', e', h1, h2, hk, hk'⟩
  · left; exact ⟨m, by simp [buildInstructionCode, h1], by simp [buildInstructionCode, h2]⟩
  · have hplen : p.length = (addiuArgFormat.zip args).length := by
      rw [← List.length_map p Prod.fst, hk, List.length_map]
    have hplen' : p'.length = (addiuArgFormat.zip args).length := by
      rw [← List.length_map p' Prod.fst, hk', List.length_map]
    have hIT : ITypeArgs.length = 4 := rfl
    have hpp : (p ++ [("op", (9 : Int))]).length = p.length + 1 := by simp
    have hpp' : (p' ++ [("op", (9 : Int))]).length = p'.length + 1 := by simp
    by_cases hc : (p ++ [("op", (9 : Int))]).length ≠ ITypeArgs.length
    · have hc' : (p' ++ [("op", (9 : Int))]).length ≠ ITypeArgs.length := by
        rw [hpp', hIT]
        rw [hpp, hIT] at hc
        omega
      right
      have key : ∀ (LL : Option (List (Line × Nat))) q eq,
          evalArgsLoop (addiuArgFormat.zip args) LL = .ok (q, eq) →
          (q ++ [("op", (9 : Int))]).length ≠ ITypeArgs.length →
          buildInstructionCode args LL
            = .ok ([0, 0, 0, 0],
                eq ++ [⟨expectedArgsMsg (q ++ [("op", (9 : Int))]).length, none⟩]) := by
        intro LL q eq hq hne
        simp only [buildInstructionCode, hq]
        rw [if_pos hne]
        simp [byteCode_zeroed_ok]
      exact ⟨_, _, _, _, key L p e h1 hc, key L' p' e' h2 hc', rfl, rfl⟩
    · have heq := not_not.mp hc
      rw [hpp, hIT] at heq
      have hlen3 : p.length = 3 := by omega
      have hlen3' : p'.length = 3 := by
        rw [← hplen, hlen3] at hplen'
        omega
      have hzlen : (addiuArgFormat.zip args).length = 3 := by rw [← hplen, hlen3]
      have hargs : addiuArgFormat.length ≤ args.length := by
        have hmin : min addiuArgFormat.length args.length = 3 := by
          simpa [List.length_zip] using hzlen
        simp only [addiuArgFormat, List.length_cons, List.length_nil] at hmin ⊢
        omega
      have hzf : (addiuArgFormat.zip args).map Prod.fst = addiuArgFormat :=
        List.map_fst_zip addiuArgFormat args hargs
      rw [hzf] at hk hk'
      obtain ⟨x1, x2, x3, rfl⟩ := List.length_eq_three.mp hlen3
      obtain ⟨y1, y2, y3, rfl⟩ := List.length_eq_three.mp hlen3'
      obtain ⟨n1, v1⟩ := x1; obtain ⟨n2, v2⟩ := x2; obtain ⟨n3, v3⟩ := x3
      obtain ⟨m1, w1⟩ := y1; obtain ⟨m2, w2⟩ := y2; obtain ⟨m3, w3⟩ := y3
      simp only [List.map_cons, List.map_nil, addiuArgFormat, List.cons.injEq, and_true] at hk hk'
      obtain ⟨rfl, rfl, rfl⟩ := hk
      obtain ⟨rfl, rfl, rfl⟩ := hk'
      have hc' : ¬ (([("rt", w1), ("rs", w2), ("imm", w3)] ++ [("op", (9 : Int))]).length
          ≠ ITypeArgs.length) := by
        rw [hpp', hIT]
        omega
      obtain ⟨code, hcode, hclen⟩ := byteCode_addiu_ok v1 v2 v3
      obtain ⟨code', hcode', hclen'⟩ := byteCode_addiu_ok w1 w2 w3
      right
      have key2 : ∀ (LL : Option (List (Line × Nat))) a b c eq cd,
          evalArgsLoop (addiuArgFormat.zip args) LL
            = .ok ([("rt", a), ("rs", b), ("imm", c)], eq) →
          byteCodeFromArgs ITypeArgs [("rt", a), ("rs", b), ("imm", c), ("op", 9)] = .ok cd →
          buildInstructionCode args LL = .ok (cd, eq) := by
        intro LL a b c eq cd hq hcd
        simp only [buildInstructionCode, hq]
        rw [if_neg (by simp [ITypeArgs])]
        simp [hcd]
      exact ⟨code, e, code', e', key2 L v1 v2 v3 e code h1 hcode,
        key2 L' w1 w2 w3 e' code' h2 hcode', hclen, hclen'⟩

theorem stepOk_refl (s : AsmState) (fp : Bool) : StepOk s s 0 fp :=
  ⟨by omega, by omega, rfl, ⟨[], by simp⟩, ⟨[], by simp, fun _ => rfl⟩⟩

theorem stepOk_addBytes (s : AsmState) (bs : List Nat) (fp : Bool) :
    StepOk s (addBytesToCode s bs) bs.length fp :=
  ⟨rfl, by simp [addBytesToCode], rfl, ⟨[], by simp [addBytesToCode]⟩,
    ⟨[], by simp [addBytesToCode], fun _ => rfl⟩⟩

theorem stepOk_createError (s : AsmState) (msg : String) (fp : Bool) :
    StepOk s (createError s msg) 0 fp :=
  ⟨by simp [createError], by simp [createError], rfl,
    ⟨[⟨msg, some s.currentLine⟩], by simp [createError]⟩,
    ⟨[], by simp [createError], fun _ => rfl⟩⟩

theorem stepOk_createWarning (s : AsmState) (msg : String) :
    StepOk s (createWarning s msg) 0 true :=
  ⟨by simp [createWarning], by simp [createWarning], rfl,
    ⟨[], by simp [createWarning]⟩,
    ⟨[⟨msg, some s.currentLine⟩], by simp [createWarning], fun h => by cases h⟩⟩

theorem stepOk_trackAddBytes (s : AsmState) (errs : List AssemblyMessage) (bs : List Nat)
    (fp : Bool) : StepOk s (addBytesToCode (trackErrorsToCurrentLine s errs) bs) bs.length fp :=
  ⟨rfl, by simp [addBytesToCode, trackErrorsToCurrentLine], rfl,
    ⟨errs.map (fun m => { m with line := some s.currentLine }),
      by simp [addBytesToCode, trackErrorsToCurrentLine]⟩,
    ⟨[], by simp [addBytesToCode, trackErrorsToCurrentLine], fun _ => rfl⟩⟩

theorem stepOk_advance (s s' : AsmState) (k : Nat) (fp : Bool) (h : StepOk s s' k fp) :
    StepOk s (advanceLine s') k fp := by
  obtain ⟨h1, h2, h3, h4, h5⟩ := h
  exact ⟨by simpa [advanceLine] using h1, by simpa [advanceLine] using h2,
    by simpa [advanceLine] using h3, by simpa [advanceLine] using h4,
    by simpa [advanceLine] using h5⟩

theorem stepOk_label (s : AsmState) (name : Line) :
    StepOk s (advanceLine (onLabel s name)) 0 true := by
  refine stepOk_advance _ _ _ _ ?_
  exact ⟨by simp [onLabel], by simp [onLabel], rfl, ⟨[], by simp [onLabel]⟩,
    ⟨[], by simp [onLabel], fun _ => rfl⟩⟩

theorem onDirective_parity (s t : AsmState) (d : Line) (args : List Line) (fp fp' : Bool) :
    (∃ m, onDirective s d args fp = .error m ∧ onDirective t d args fp' = .error m) ∨
    (∃ s' t' k, onDirective s d args fp = .ok s' ∧ onDirective t d args fp' = .ok t' ∧
      StepOk s s' k fp ∧ StepOk t t' k fp') := by
  by_cases hw : (d == chars "word") = true
  · cases ha : args.head? with
    | none =>
      left; exact ⟨"IndexError", by simp [onDirective, hw, ha], by simp [onDirective, hw, ha]⟩
    | some a0 =>
      cases hi : pyInt a0 with
      | none =>
        left
        exact ⟨"ValueError", by simp [onDirective, hw, ha, hi], by simp [onDirective, hw, ha, hi]⟩
      | some n =>
        cases htw : toWord n with
        | error e =>
          left
          exact ⟨e, by simp [onDirective, hw, ha, hi, htw], by simp [onDirective, hw, ha, hi, htw]⟩
        | ok bs =>
          right
          exact ⟨addBytesToCode s bs, addBytesToCode t bs, bs.length,
            by simp [onDirective, hw, ha, hi, htw], by simp [onDirective, hw, ha, hi, htw],
            stepOk_addBytes s bs fp, stepOk_addBytes t bs fp'⟩
  · right
    cases fp <;> cases fp'
    · exact ⟨s, t, 0, by simp [onDirective, hw], by simp [onDirective, hw],
        stepOk_refl s false, stepOk_refl t false⟩
    · exact ⟨s, createWarning t (unknownDirectiveMsg d), 0,
        by simp [onDirective, hw], by simp [onDirective, hw],
        stepOk_refl s false, stepOk_createWarning t _⟩
    · exact ⟨createWarning s (unknownDirectiveMsg d), t, 0,
        by simp [onDirective, hw], by simp [onDirective, hw],
        stepOk_createWarning s _, stepOk_refl t false⟩
    · exact ⟨createWarning s (unknownDirectiveMsg d), createWarning t (unknownDirectiveMsg d), 0,
        by simp [onDirective, hw], by simp [onDirective, hw],
        stepOk_createWarning s _, stepOk_createWarning t _⟩

theorem onInstructionCore_parity (s t : AsmState) (instr : Line) (args : List Line)
    (fp fp' : Bool) :
    (∃ m, onInstructionCore s instr args fp = .error m ∧
      onInstructionCore t instr args fp' = .error m) ∨
    (∃ s' t' k, onInstructionCore s instr args fp = .ok s' ∧
      onInstructionCore t instr args fp' = .ok t' ∧ StepOk s s' k fp ∧ StepOk t t' k fp') := by
  by_cases hadd : (instr == chars "addiu") = true
  · rcases buildInstructionCode_parity args (if fp then none else some s.labels)
        (if fp' then none else some t.labels) with ⟨m, h1, h2⟩ | ⟨c, e, c', e', h1, h2, hc, hc'⟩
    · left
      exact ⟨m, by simp [onInstructionCore, hadd, h1], by simp [onInstructionCore, hadd, h2]⟩
    · right
      refine ⟨addBytesToCode (trackErrorsToCurrentLine s e) c,
        addBytesToCode (trackErrorsToCurrentLine t e') c', 4,
        by simp [onInstructionCore, hadd, h1], by simp [onInstructionCore, hadd, h2], ?_, ?_⟩
      · have := stepOk_trackAddBytes s e c fp; rwa [hc] at this
      · have := stepOk_trackAddBytes t e' c' fp'; rwa [hc'] at this
  · right
    exact ⟨createError s (unknownInstructionMsg instr), createError t (unknownInstructionMsg instr),
      0, by simp [onInstructionCore, hadd], by simp [onInstructionCore, hadd],
      stepOk_createError s _ fp, stepOk_createError t _ fp'⟩

theorem onInstruction_parity (s t : AsmState) (instr : Line) (args : List Line)
    (fp fp' : Bool) :
    (∃ m, onInstruction s instr args fp = .error m ∧ onInstruction t instr args fp' = .error m) ∨
    (∃ s' t' k, onInstruction s instr args fp = .ok s' ∧ onInstruction t instr args fp' = .ok t' ∧
      StepOk s s' k fp ∧ StepOk t t' k fp') := by
  by_cases hn : (instr == chars "nop") = true
  · rcases onInstructionCore_parity s t (chars "sll") [chars "$zero", chars "$zero", chars "0"]
        fp fp' with ⟨m, h1, h2⟩ | ⟨s', t', k, h1, h2, hk1, hk2⟩
    · left; exact ⟨m, by simp [onInstruction, hn, h1], by simp [onInstruction, hn, h2]⟩
    · right; exact ⟨s', t', k, by simp [onInstruction, hn, h1], by simp [onInstruction, hn, h2],
        hk1, hk2⟩
  · rcases onInstructionCore_parity s t instr args fp fp' with
      ⟨m, h1, h2⟩ | ⟨s', t', k, h1, h2, hk1, hk2⟩
    · left; exact ⟨m, by simp [onInstruction, hn, h1], by simp [onInstruction, hn, h2]⟩
    · right; exact ⟨s', t', k, by simp [onInstruction, hn, h1], by simp [onInstruction, hn, h2],
        hk1, hk2⟩

theorem classifyLine_parity (line : Line) (s t : AsmState) (fp fp' : Bool) :
    (∃ m, classifyLine s line fp = .error m ∧ classifyLine t line fp' = .error m) ∨
    (∃ s' t' k, classifyLine s line fp = .ok s' ∧ classifyLine t line fp' = .ok t' ∧
      StepOk s s' k fp ∧ StepOk t t' k fp') := by
  by_cases hemp : line.isEmpty = true
  · right
    exact ⟨s, t, 0, by simp [classifyLine, hemp], by simp [classifyLine, hemp],
      stepOk_refl s fp, stepOk_refl t fp'⟩
  · by_cases hlast : (line.getLast? == some ':') = true
    · right
      cases fp <;> cases fp'
      · exact ⟨s, t, 0, by simp [classifyLine, hemp, hlast], by simp [classifyLine, hemp, hlast],
          stepOk_refl s false, stepOk_refl t false⟩
      · exact ⟨s, advanceLine (onLabel t (rstripColons line)), 0,
          by simp [classifyLine, hemp, hlast], by simp [classifyLine, hemp, hlast],
          stepOk_refl s false, stepOk_label t _⟩
      · exact ⟨advanceLine (onLabel s (rstripColons line)), t, 0,
          by simp [classifyLine, hemp, hlast], by simp [classifyLine, hemp, hlast],
          stepOk_label s _, stepOk_refl t false⟩
      · exact ⟨advanceLine (onLabel s (rstripColons line)),
          advanceLine (onLabel t (rstripColons line)), 0,
          by simp [classifyLine, hemp, hlast], by simp [classifyLine, hemp, hlast],
          stepOk_label s _, stepOk_label t _⟩
    · by_cases hdot : (line.head? == some '.') = true
      · cases hsplit : pySplit ' ' [] (line.dropWhile (fun c => c == '.')) with
        | nil =>
          left
          exact ⟨"IndexError", by simp [classifyLine, hemp, hlast, hdot, hsplit],
            by simp [classifyLine, hemp, hlast, hdot, hsplit]⟩
        | cons dct restParts =>
          rcases onDirective_parity s t dct
              ((pySplit ',' [] ((restParts.head?).getD [])).map pyStrip) fp fp' with
            ⟨m, h1, h2⟩ | ⟨s', t', k, h1, h2, hk1, hk2⟩
          · left
            exact ⟨m, by simp [classifyLine, hemp, hlast, hdot, hsplit, h1],
              by simp [classifyLine, hemp, hlast, hdot, hsplit, h2]⟩
          · right
            exact ⟨advanceLine s', advanceLine t', k,
              by simp [classifyLine, hemp, hlast, hdot, hsplit, h1],
              by simp [classifyLine, hemp, hlast, hdot, hsplit, h2],
              stepOk_advance _ _ _ _ hk1, stepOk_advance _ _ _ _ hk2⟩
      · cases hsplit : pySplit ' ' [] line with
        | nil =>
          left
          exact ⟨"IndexError", by simp [classifyLine, hemp, hlast, hdot, hsplit],
            by simp [classifyLine, hemp, hlast, hdot, hsplit]⟩
        | cons instr restParts =>
          rcases onInstruction_parity s t instr
              ((pySplit ',' [] ((restParts.head?).getD [])).map pyStrip) fp fp' with
            ⟨m, h1, h2⟩ | ⟨s', t', k, h1, h2, hk1, hk2⟩
          · left
            exact ⟨m, by simp [classifyLine, hemp, hlast, hdot, hsplit, h1],
              by simp [classifyLine, hemp, hlast, hdot, hsplit, h2]⟩
          · right
            exact ⟨advanceLine s', advanceLine t', k,
              by simp [classifyLine, hemp, hlast, hdot, hsplit, h1],
              by simp [classifyLine, hemp, hlast, hdot, hsplit, h2],
              stepOk_advance _ _ _ _ hk1, stepOk_advance _ _ _ _ hk2⟩

theorem processLine_parity (rawLine : Line) (s t : AsmState) (fp fp' : Bool) :
    (∃ m, processLine s rawLine fp = .error m ∧ processLine t rawLine fp' = .error m) ∨
    (∃ s' t' k, processLine s rawLine fp = .ok s' ∧ processLine t rawLine fp' = .ok t' ∧
      StepOk s s' k fp ∧ StepOk t t' k fp') := by
  cases hrc : removeComments (pyStrip rawLine) with
  | none =>
    left
    exact ⟨"AttributeError", by simp [processLine, hrc], by simp [processLine, hrc]⟩
  | some dec =>
    rcases classifyLine_parity (dec.map (fun c => if c == '\t' then ' ' else c)) s t fp fp' with
      ⟨m, h1, h2⟩ | ⟨s', t', k, h1, h2, hk1, hk2⟩
    · left
      exact ⟨m, by simp only [processLine, hrc]; exact h1, by simp only [processLine, hrc]; exact h2⟩
    · right
      exact ⟨s', t', k, by simp only [processLine, hrc]; exact h1,
        by simp only [processLine, hrc]; exact h2, hk1, hk2⟩

theorem stepOk_trans {s s' s'' : AsmState} {k k' : Nat} {fp : Bool}
    (h : StepOk s s' k fp) (g : StepOk s' s'' k' fp) : StepOk s s'' (k + k') fp := by
  obtain ⟨a1, a2, a3, ⟨er1, he1⟩, ⟨wr1, hw1, hwe1⟩⟩ := h
  obtain ⟨b1, b2, b3, ⟨er2, he2⟩, ⟨wr2, hw2, hwe2⟩⟩ := g
  refine ⟨by omega, by omega, by rw [b3, a3], ⟨er1 ++ er2, ?_⟩, ⟨wr1 ++ wr2, ?_, ?_⟩⟩
  · rw [he2, he1, List.append_assoc]
  · rw [hw2, hw1, List.append_assoc]
  · intro h
    rw [hwe1 h, hwe2 h]
    rfl

/-- StepOk composes across a whole pass. -/
theorem runLines_parity (lines : List Line) (s t : AsmState) (fp fp' : Bool) :
    (∃ m, runLines lines fp s = .error m ∧ runLines lines fp' t = .error m) ∨
    (∃ s' t' k, runLines lines fp s = .ok s' ∧ runLines lines fp' t = .ok t' ∧
      StepOk s s' k fp ∧ StepOk t t' k fp') := by
  induction lines generalizing s t with
  | nil => right; exact ⟨s, t, 0, rfl, rfl, stepOk_refl s fp, stepOk_refl t fp'⟩
  | cons l rest ih =>
    rcases processLine_parity l s t fp fp' with ⟨m, h1, h2⟩ | ⟨s', t', k, h1, h2, hk1, hk2⟩
    · left; exact ⟨m, by simp [runLines, h1], by simp [runLines, h2]⟩
    · rcases ih s' t' with ⟨m, g1, g2⟩ | ⟨s'', t'', k', g1, g2, gk1, gk2⟩
      · left; exact ⟨m, by simp [runLines, h1, g1], by simp [runLines, h2, g2]⟩
      · right
        exact ⟨s'', t'', k + k', by simp [runLines, h1, g1], by simp [runLines, h2, g2],
          stepOk_trans hk1 gk1, stepOk_trans hk2 gk2⟩

/-! ## Claim theorems -/

/-- C1: for every source program, when assemble completes, the final
byte-position cursor and the byte length of the emitted machine image
after pass 1 are identical to those after pass 2, and the cursor always
equals the image length. -/
theorem two_pass_cursor_invariant (P : List Line)
    (h : (assemble (initState P)).isOk = true) :
    (runPass (initState P) true).map (fun s => (s.currentPos, s.machCode.length))
      = (assemble (initState P)).map (fun s => (s.currentPos, s.machCode.length)) ∧
    (assemble (initState P)).map (fun s => s.currentPos == s.machCode.length)
      = .ok true := by
  have hpol : (initState P).polluted = false := rfl
  cases hr1 : runPass (initState P) true with
  | error e =>
    have ha : assemble (initState P) = .error e := by
      unfold assemble
      rw [if_neg (by rw [hpol]; exact Bool.false_ne_true), hr1]
    rw [ha] at h
    cases h
  | ok s1 =>
    cases hr2 : runPass { s1 with currentPos := 0, currentLine := 1, machCode := [] } false with
    | error e =>
      have ha : assemble (initState P) = .error e := by
        unfold assemble
        rw [if_neg (by rw [hpol]; exact Bool.false_ne_true), hr1]
        dsimp only
        rw [hr2]
      rw [ha] at h
      cases h
    | ok s2 =>
      have ha : assemble (initState P) = .ok { s2 with polluted := true } := by
        unfold assemble
        rw [if_neg (by rw [hpol]; exact Bool.false_ne_true), hr1]
        dsimp only
        rw [hr2]
      have hrl1 : runLines P true
          (addBytesToCode (initState P) (List.replicate IO_SPACE_SIZE 0)) = .ok s1 := hr1
      have hpres : s1.sourceLines = P := by
        rcases runLines_parity P
            (addBytesToCode (initState P) (List.replicate IO_SPACE_SIZE 0))
            (addBytesToCode (initState P) (List.replicate IO_SPACE_SIZE 0)) true true with
          ⟨m, hm, _⟩ | ⟨x, y, k, hx, hy, hkx, hky⟩
        · rw [hrl1] at hm; cases hm
        · rw [hrl1] at hx
          injection hx with hx
          subst hx
          exact hkx.2.2.1
      obtain ⟨A2, hA2⟩ : ∃ A2,
          addBytesToCode { s1 with currentPos := 0, currentLine := 1, machCode := [] }
            (List.replicate IO_SPACE_SIZE 0) = A2 := ⟨_, rfl⟩
      have hA2p : A2.currentPos = 256 := by
        rw [← hA2]
        simp only [addBytesToCode, List.length_replicate, IO_SPACE_SIZE]
      have hA2l : A2.machCode.length = 256 := by
        rw [← hA2]
        simp only [addBytesToCode, List.nil_append, List.length_replicate, IO_SPACE_SIZE]
      have hll : runLines P false A2 = .ok s2 := by
        have h0 : runLines s1.sourceLines false A2 = .ok s2 := by
          rw [← hA2]
          exact hr2
        rw [hpres] at h0
        exact h0
      rcases runLines_parity P
          (addBytesToCode (initState P) (List.replicate IO_SPACE_SIZE 0)) A2 true false with
        ⟨m, hm, _⟩ | ⟨x, y, k, hx, hy, hkx, hky⟩
      · rw [hrl1] at hm; cases hm
      · rw [hrl1] at hx
        injection hx with hx
        subst hx
        rw [hll] at hy
        injection hy with hy
        subst hy
        have hA1p : (addBytesToCode (initState P)
            (List.replicate IO_SPACE_SIZE 0)).currentPos = 256 := by
          simp only [addBytesToCode, initState, List.length_replicate, IO_SPACE_SIZE]
        have hA1l : (addBytesToCode (initState P)
            (List.replicate IO_SPACE_SIZE 0)).machCode.length = 256 := by
          simp only [addBytesToCode, initState, List.nil_append, List.length_replicate,
            IO_SPACE_SIZE]
        have hs1p : s1.currentPos = 256 + k := by rw [hkx.1, hA1p]
        have hs1l : s1.machCode.length = 256 + k := by rw [hkx.2.1, hA1l]
        have hs2p : s2.currentPos = 256 + k := by rw [hky.1, hA2p]
        have hs2l : s2.machCode.length = 256 + k := by rw [hky.2.1, hA2l]
        have hfin : ({ s2 with polluted := true } : AsmState).currentPos = 256 + k := hs2p
        have hfin2 : ({ s2 with polluted := true } : AsmState).machCode.length = 256 + k := hs2l
        constructor
        · rw [ha]
          simp only [Except.map]
          rw [hs1p, hs1l, hfin, hfin2]
        · rw [ha]
          simp only [Except.map]
          rw [hfin, hfin2]
          simp

/-- C1 witness: the invariant holds concretely on the two-line scenario
program (pass 1 and the finished assembly both leave cursor 260 and a
260-byte image). -/
theorem two_pass_cursor_invariant_witness :
    (assemble (initState scenarioNoSpace)).isOk = true ∧
    ((runPass (initState scenarioNoSpace) true).map (fun s => (s.currentPos, s.machCode.length))
      = (assemble (initState scenarioNoSpace)).map (fun s => (s.currentPos, s.machCode.length)) ∧
    (assemble (initState scenarioNoSpace)).map (fun s => s.currentPos == s.machCode.length)
      = .ok true) :=
  ⟨by decide, two_pass_cursor_invariant scenarioNoSpace (by decide)⟩

/-- C3: for every integer field value v and declared width w, the
encoder stores the bit array of v mod 2^w (low-order bits, hence
twos-complement wraparound for negative v); the packed I-type word is
exactly the packing of those truncated fields, and reading any of the
four fields back from the packed 32-bit word yields the field value mod
2^width. -/
theorem field_truncation_roundtrip :
    (∀ (v : Int) (w : Nat), bitsToInt (toBits v w) = v % 2 ^ w) ∧
    (∀ op rs rt imm : Int,
      byteCodeFromArgs ITypeArgs [("op", op), ("rs", rs), ("rt", rt), ("imm", imm)]
        = packBE32 (iTypeWord op rs rt imm) ∧
      readField (iTypeWord op rs rt imm) 26 6 = op % 2 ^ 6 ∧
      readField (iTypeWord op rs rt imm) 21 5 = rs % 2 ^ 5 ∧
      readField (iTypeWord op rs rt imm) 16 5 = rt % 2 ^ 5 ∧
      readField (iTypeWord op rs rt imm) 0 16 = imm % 2 ^ 16) :=
  ⟨bitsToInt_toBits, fun op rs rt imm =>
    ⟨byteCode_iType op rs rt imm, iTypeWord_fields op rs rt imm⟩⟩

/-- C5 (code_bug evidence): processing a blank physical line advances
the diagnostic line counter by zero, not one, in both passes; a label
line advances it in the first pass but not in the second. -/
theorem line_counter_not_advanced :
    (processLine (initState [[]]) [] true).map (fun s => s.currentLine) = .ok 1 ∧
    (processLine (initState [[]]) [] false).map (fun s => s.currentLine) = .ok 1 ∧
    (processLine (initState [chars "main:"]) (chars "main:") true).map
      (fun s => s.currentLine) = .ok 2 ∧
    (processLine (initState [chars "main:"]) (chars "main:") false).map
      (fun s => s.currentLine) = .ok 1 := by
  refine ⟨rfl, rfl, rfl, rfl⟩

set_option maxRecDepth 100000 in
/-- C10: a label line always rebinds the name to the current byte
position without touching the diagnostics, so with the same label
defined on several lines the symbol table after pass 1 holds the byte
position of the last definition (260, not the first definition's 256 in
the concrete program), and no redefinition diagnostic exists. -/
theorem label_redefinition_last_wins :
    (∀ (s : AsmState) (name : Line),
      (onLabel s name).labels.lookup name = some s.currentPos ∧
      (onLabel s name).errors = s.errors ∧ (onLabel s name).warnings = s.warnings) ∧
    ((runPass (initState dupLabelProgram) true).map
      (fun s => (s.labels, s.errors, s.warnings))
      = .ok ([(chars "dup", 260), (chars "dup", 256)], [], [])) ∧
    ((runPass (initState dupLabelProgram) true).map
      (fun s => s.labels.lookup (chars "dup")) = .ok (some 260)) := by
  refine ⟨fun s name => ⟨?_, rfl, rfl⟩, by decide, by decide⟩
  simp [onLabel, List.lookup]

set_option maxRecDepth 100000 in
/-- C2 counterexample: on the scenario source exactly as the spec
spells it (spaces after the commas), the word emitted after the
reserved window is all zero, not the claimed encoding of opcode 9,
rs 0, rt 2, imm 5, and two argument-count errors are recorded: the
argument splitter keeps only the first space-separated chunk after the
mnemonic, so rs and imm are dropped. -/
theorem scenario_counterexample :
    ((assemble (initState scenarioSpaced)).map (fun s => s.machCode.drop 256)
      = .ok [0, 0, 0, 0]) ∧
    (byteCodeFromArgs ITypeArgs [("op", 9), ("rs", 0), ("rt", 2), ("imm", 5)]
      = .ok [36, 2, 0, 5]) ∧
    ([(0 : Nat), 0, 0, 0] ≠ [36, 2, 0, 5]) ∧
    ((assemble (initState scenarioSpaced)).map (fun s => s.errors.length) = .ok 2) := by
  refine ⟨by decide, by decide, by decide, by decide⟩

set_option maxRecDepth 100000 in
/-- C2 amended: with the operand list written without spaces after the
commas, the scenario holds: the entry-point program counter is the
address of main, which equals the size of the reserved window (256),
and exactly one big-endian instruction word 0x24020005 with fields
opcode 9, rs 0, rt 2, imm 5 follows the window, with no diagnostics. -/
theorem scenario_amended :
    ((assemble (initState scenarioNoSpace)).map
      (fun s => (s.machCode, s.errors, s.warnings, s.labels.lookup (chars "main")))
      = .ok (List.replicate IO_SPACE_SIZE 0 ++ [36, 2, 0, 5], [], [], some IO_SPACE_SIZE)) ∧
    ((assemble (initState scenarioNoSpace)).map findEntryPoint = .ok (.ok IO_SPACE_SIZE)) ∧
    (byteCodeFromArgs ITypeArgs [("op", 9), ("rs", 0), ("rt", 2), ("imm", 5)]
      = .ok [36, 2, 0, 5]) := by
  refine ⟨by decide, by decide, by decide⟩

set_option maxRecDepth 100000 in
/-- C4 counterexample: assembling the one-line undefined-label source
exactly as the spec spells it records two error diagnostics, not
exactly one. -/
theorem undefined_label_counterexample :
    ((assemble (initState undefLabelSpaced)).map (fun s => s.errors.length) = .ok 2) ∧
    ¬ ((assemble (initState undefLabelSpaced)).map (fun s => s.errors.length) = .ok 1) := by
  refine ⟨by decide, by decide⟩

set_option maxRecDepth 100000 in
/-- C4 amended: no exception is raised and a full all-zero 32-bit word
is emitted, but the diagnostics differ from the claim: with the spec
spelling the operand splitter drops everything after the first chunk,
so each pass records one argument-count error (two in total, both
tagged line 1) and the label is never looked up; and even with the
splitter-compatible spelling the label reference produces no diagnostic
at all, because the empty symbol table is treated like the first-pass
placeholder table and the label silently resolves to 0 (imm field 0 in
the emitted word 0x24020000). -/
theorem undefined_label_amended :
    ((assemble (initState undefLabelSpaced)).map
      (fun s => (s.machCode, s.errors.map (fun m => (m.message, m.line)), s.warnings))
      = .ok (List.replicate IO_SPACE_SIZE 0 ++ [0, 0, 0, 0],
          [("Expected 4 arguments, but found 2", some 1),
           ("Expected 4 arguments, but found 2", some 1)], [])) ∧
    ((assemble (initState undefLabelNoSpace)).map
      (fun s => (s.machCode, s.errors, s.warnings))
      = .ok (List.replicate IO_SPACE_SIZE 0 ++ [36, 2, 0, 0], [], [])) := by
  refine ⟨by decide, by decide⟩

set_option maxRecDepth 100000 in
/-- C6 counterexample: an Assembly instance on which no source was ever
loaded (sourceLines is still the empty list left by the constructor)
assembles without raising any exception: both passes simply run over
zero lines and emit only the reserved window. -/
theorem assemble_before_load_counterexample :
    (assemble (initState [])).isOk = true ∧
    (assemble (initState [])).map (fun s => s.machCode.length) = .ok 256 := by
  refine ⟨by decide, by decide⟩

set_option maxRecDepth 100000 in
/-- C6 amended: re-assembling a polluted instance raises, and resolving
the entry point with no main label raises, but assembling before any
source is loaded is NOT a fatal usage error: it completes normally. -/
theorem usage_errors_amended :
    (∀ s : AsmState, s.polluted = true →
      assemble s
        = .error "Exception: Assembly source can only be processed once per Assembly instance") ∧
    (∀ s : AsmState, s.labels.lookup (chars "main") = none →
      findEntryPoint s = .error "KeyError") ∧
    (assemble (initState [])).isOk = true := by
  refine ⟨?_, ?_, by decide⟩
  · intro s h
    unfold assemble
    rw [if_pos h]
  · intro s h
    simp [findEntryPoint, h]

/-- C6 witness: the two fatal paths observed on concrete states through
the amended theorem. -/
theorem usage_errors_amended_witness :
    (assemble { initState [] with polluted := true }
      = .error "Exception: Assembly source can only be processed once per Assembly instance") ∧
    (findEntryPoint (initState []) = .error "KeyError") :=
  ⟨usage_errors_amended.1 { initState [] with polluted := true } (by decide),
   usage_errors_amended.2.1 (initState []) (by decide)⟩

/-- C7 counterexample: the register index 32 (outside 0-31) is accepted
as-is with no diagnostic and a non-zero result, while the alias t9
(absent from the table) raises an uncaught ValueError instead of being
recorded as a diagnostic with default value 0. -/
theorem register_errors_counterexample :
    (evaluate (chars "$32") none = .ok (32, none)) ∧
    (evaluate (chars "$32") (some [(chars "main", 256)]) = .ok (32, none)) ∧
    (evaluate (chars "$t9") none = .error "ValueError") ∧
    ((32 : Int) ≠ 0) := by
  refine ⟨by decide, by decide, by decide, by decide⟩

/-- C7 amended: a register reference whose name is neither in the alias
table nor a parsable integer raises an uncaught (fatal) ValueError; a
numeric register index outside 0-31 is accepted unchanged, with no
diagnostic and no clamping (it is only truncated later to the field's
declared bit width). -/
theorem register_errors_amended :
    (∀ rest : Line, registerAliases.lookup rest = none → pyInt rest = none →
      getRegisterNumber ('$' :: rest) = .error "ValueError") ∧
    (∀ (rest : Line) (n : Int), registerAliases.lookup rest = none → pyInt rest = some n →
      getRegisterNumber ('$' :: rest) = .ok n) ∧
    (∀ L, evaluate (chars "$32") L = .ok (32, none)) := by
  refine ⟨?_, ?_, fun L => rfl⟩
  · intro rest h1 h2
    simp [getRegisterNumber, h1, h2]
  · intro rest n h1 h2
    simp [getRegisterNumber, h1, h2]

/-- C7 witness: the amended behaviour at the concrete register names t9
and 32. -/
theorem register_errors_amended_witness :
    (getRegisterNumber ('$' :: chars "t9") = .error "ValueError") ∧
    (getRegisterNumber ('$' :: chars "32") = .ok 32) ∧
    (evaluate (chars "$32") none = .ok (32, none)) :=
  ⟨register_errors_amended.1 (chars "t9") (by decide) (by decide),
   register_errors_amended.2.1 (chars "32") 32 (by decide) (by decide),
   register_errors_amended.2.2 none⟩

set_option maxRecDepth 100000 in
/-- C8 counterexample: a nop line emits no bytes at all and records an
error diagnostic (sll, the expansion target, is not an implemented
mnemonic), so after a full assemble of the one-line nop program the
image is just the 256-byte reserved window and the error list has two
entries. -/
theorem nop_counterexample :
    ((processLine (initState [chars "nop"]) (chars "nop") true).map
      (fun s => (s.machCode.length, s.errors.map (fun m => m.message)))
      = .ok (0, ["Unknown instruction \"sll\""])) ∧
    ((assemble (initState [chars "nop"])).map (fun s => (s.machCode.length, s.errors.length))
      = .ok (256, 2)) := by
  refine ⟨by decide, by decide⟩

set_option maxRecDepth 100000 in
/-- C8 amended: nop does expand as a fixed alias to
shift-left-logical-by-zero, but because sll is not an implemented
mnemonic the expansion records one error diagnostic per pass with the
message naming sll and emits no instruction word for the line. -/
theorem nop_amended :
    (∀ (s : AsmState) (args : List Line) (fp : Bool),
      onInstruction s (chars "nop") args fp
        = .ok (createError s (unknownInstructionMsg (chars "sll")))) ∧
    ((assemble (initState [chars "nop"])).map
      (fun s => (s.machCode, s.errors.map (fun m => (m.message, m.line))))
      = .ok (List.replicate IO_SPACE_SIZE 0,
          [(unknownInstructionMsg (chars "sll"), some 1),
           (unknownInstructionMsg (chars "sll"), some 1)])) := by
  refine ⟨fun s args fp => rfl, by decide⟩

set_option maxRecDepth 100000 in
/-- C9 counterexample: after assembling a label line followed by an
unrecognized mnemonic, the two recorded diagnostics share a message but
carry different line numbers (2 from pass 1, 1 from pass 2, because the
label line advances the counter only in the first pass), so they are
not identical. -/
theorem duplicate_diagnostics_counterexample :
    ((assemble (initState unknownAfterLabel)).map
      (fun s => s.errors.map (fun m => (m.message, m.line)))
      = .ok [(unknownInstructionMsg (chars "foo"), some 2),
             (unknownInstructionMsg (chars "foo"), some 1)]) ∧
    ((unknownInstructionMsg (chars "foo"), some 2)
      ≠ (unknownInstructionMsg (chars "foo"), (some 1 : Option Nat))) := by
  refine ⟨by decide, by decide⟩

/-- C9 amended: an unrecognized mnemonic records exactly one error with
the same message text in either pass, an unknown directive records its
warning only in the first pass, and assemble never resets diagnostics
between passes (the pass-1 error list is a prefix of the final list and
the final warnings are exactly the pass-1 warnings) — but the two error
records for one line may carry different line numbers. -/
theorem duplicate_diagnostics_amended :
    (∀ (s : AsmState) (instr : Line) (args : List Line) (fp : Bool),
      instr ≠ chars "nop" → instr ≠ chars "addiu" →
      onInstruction s instr args fp = .ok (createError s (unknownInstructionMsg instr))) ∧
    (∀ (s : AsmState) (d : Line) (args : List Line),
      d ≠ chars "word" →
      onDirective s d args true = .ok (createWarning s (unknownDirectiveMsg d)) ∧
      onDirective s d args false = .ok s) ∧
    (∀ (P : List Line) (s1 s2 : AsmState),
      runPass (initState P) true = .ok s1 → assemble (initState P) = .ok s2 →
      s2.errors.take s1.errors.length = s1.errors ∧ s2.warnings = s1.warnings) := by
  refine ⟨?_, ?_, ?_⟩
  · intro s instr args fp h1 h2
    simp [onInstruction, onInstructionCore, h1, h2]
  · intro s d args h
    constructor <;> simp [onDirective, h]
  · intro P s1 s2 hr1 hasm
    have hpol : (initState P).polluted = false := rfl
    have ha0 : assemble (initState P)
        = match runPass { s1 with currentPos := 0, currentLine := 1, machCode := [] } false with
          | .error e => .error e
          | .ok s2 => .ok { s2 with polluted := true } := by
      unfold assemble
      rw [if_neg (by rw [hpol]; exact Bool.false_ne_true), hr1]
    cases hr2 : runPass { s1 with currentPos := 0, currentLine := 1, machCode := [] } false with
    | error e =>
      rw [hr2] at ha0
      rw [ha0] at hasm
      cases hasm
    | ok s2r =>
      rw [hr2] at ha0
      rw [ha0] at hasm
      injection hasm with hasm
      subst hasm
      have hrl1 : runLines P true
          (addBytesToCode (initState P) (List.replicate IO_SPACE_SIZE 0)) = .ok s1 := hr1
      have hpres : s1.sourceLines = P := by
        rcases runLines_parity P
            (addBytesToCode (initState P) (List.replicate IO_SPACE_SIZE 0))
            (addBytesToCode (initState P) (List.replicate IO_SPACE_SIZE 0)) true true with
          ⟨m, hm, _⟩ | ⟨x, y, k, hx, hy, hkx, hky⟩
        · rw [hrl1] at hm; cases hm
        · rw [hrl1] at hx
          injection hx with hx
          subst hx
          exact hkx.2.2.1
      obtain ⟨A2, hA2⟩ : ∃ A2,
          addBytesToCode { s1 with currentPos := 0, currentLine := 1, machCode := [] }
            (List.replicate IO_SPACE_SIZE 0) = A2 := ⟨_, rfl⟩
      have hA2e : A2.errors = s1.errors := by rw [← hA2]; rfl
      have hA2w : A2.warnings = s1.warnings := by rw [← hA2]; rfl
      have hll : runLines P false A2 = .ok s2r := by
        have h0 : runLines s1.sourceLines false A2 = .ok s2r := by
          rw [← hA2]
          exact hr2
        rw [hpres] at h0
        exact h0
      rcases runLines_parity P A2 A2 false false with
        ⟨m, hm, _⟩ | ⟨x, y, k, hx, hy, hkx, hky⟩
      · rw [hll] at hm; cases hm
      · rw [hll] at hx
        injection hx with hx
        subst hx
        obtain ⟨_, _, _, ⟨er, her⟩, ⟨wr, hwr, hwe⟩⟩ := hkx
        have hfe : ({ s2r with polluted := true } : AsmState).errors = s1.errors ++ er := by
          rw [show ({ s2r with polluted := true } : AsmState).errors = s2r.errors from rfl,
            her, hA2e]
        have hfw : ({ s2r with polluted := true } : AsmState).warnings = s1.warnings := by
          rw [show ({ s2r with polluted := true } : AsmState).warnings = s2r.warnings from rfl,
            hwr, hA2w, hwe rfl, List.append_nil]
        exact ⟨by rw [hfe, List.take_left], hfw⟩

set_option maxRecDepth 100000 in
/-- C9 witness: the amended behaviour observed concretely — one
unknown-mnemonic error from a single application in each pass shape,
warning emission only on the first pass, and prefix preservation of the
pass-1 diagnostics on the one-line unknown-mnemonic program. -/
theorem duplicate_diagnostics_amended_witness :
    (onInstruction (initState []) (chars "foo") [] true
      = .ok (createError (initState []) (unknownInstructionMsg (chars "foo")))) ∧
    (onDirective (initState []) (chars "text") [] true
      = .ok (createWarning (initState []) (unknownDirectiveMsg (chars "text"))) ∧
     onDirective (initState []) (chars "text") [] false = .ok (initState [])) ∧
    (c9FinalState.errors.take c9Pass1State.errors.length = c9Pass1State.errors ∧
     c9FinalState.warnings = c9Pass1State.warnings) :=
  ⟨duplicate_diagnostics_amended.1 (initState []) (chars "foo") [] true
      (by decide) (by decide),
   duplicate_diagnostics_amended.2.1 (initState []) (chars "text") [] (by decide),
   duplicate_diagnostics_amended.2.2 unknownAlone c9Pass1State c9FinalState
      (by decide) (by decide)⟩
